import Mathlib

/-!
Shallow embedding of the deterministic CV primitives of
`packages/pipeline-core/src/lib.rs` (projection profiles, Sobel gradients,
skew estimation, baseline/column metrics, layout heuristic, dHash), together
with proofs of the behavioural properties claimed for them.

Conventions:
* A pixel buffer is a `List Nat` of byte values (row-major grayscale, `u8`
  in the source); widths/heights are `Nat` (`u32`/`usize` casts in the
  source never overflow for representable images).
* `f64` arithmetic is modelled over `ℝ`.  The one place where a float is
  cast back to an integer (`.sqrt() as u16` in `sobel_magnitude`) is
  modelled exactly: `f64::sqrt` is correctly rounded and the radicand is an
  integer whose real square root is never within an ulp of an integer it
  does not equal, so truncation yields `Nat.sqrt`, saturated at `u16::MAX`.
-/

namespace PipelineCore

/-- Pixel buffer: raw byte values, row-major grayscale. -/
abbrev Buffer := List Nat

/-! ## Projection profiles -/

/-- `projection_profile_y`: per-row sum of pixel intensities
(`rows[y] = Σ_x data[y*width + x]`, accumulated by the inner `x` loop). -/
def projection_profile_y (data : Buffer) (width height : Nat) : List Nat :=
  (List.range height).map (fun y =>
    (List.range width).foldl (fun sum x => sum + data.getD (y * width + x) 0) 0)

/-- `projectionProfileY` export: validates geometry, then runs on the
`width*height` prefix of the buffer. -/
def projection_profile_y_js (data : Buffer) (width height : Nat) : List Nat :=
  if width = 0 ∨ height = 0 ∨ data.length < width * height then []
  else projection_profile_y (data.take (width * height)) width height

/-- `projection_profile_x`: per-column sum of pixel intensities (the source
accumulates `cols[x] += data[y*width + x]` over the row loop, so column `x`
ends up holding `Σ_y data[y*width + x]`). -/
def projection_profile_x (data : Buffer) (width height : Nat) : List Nat :=
  (List.range width).map (fun x =>
    (List.range height).foldl (fun sum y => sum + data.getD (y * width + x) 0) 0)

/-- `projectionProfileX` export. -/
def projection_profile_x_js (data : Buffer) (width height : Nat) : List Nat :=
  if width = 0 ∨ height = 0 ∨ data.length < width * height then []
  else projection_profile_x (data.take (width * height)) width height

/-! ## Sobel gradient engine -/

/-- Sobel horizontal kernel `gx` from the source. -/
def gxKernel : List Int := [-1, 0, 1, -2, 0, 2, -1, 0, 1]

/-- Sobel vertical kernel `gy` from the source. -/
def gyKernel : List Int := [1, 2, 1, 0, 0, 0, -1, -2, -1]

/-- The 3×3 kernel accumulation at interior pixel `(x, y)`: the source's
`for ky in -1..=1 { for kx in -1..=1 { ... } }` with running kernel index
`k`, so `kx = k % 3 - 1` and `ky = k / 3 - 1`.  Meaningful for `1 ≤ x` and
`1 ≤ y` (Nat subtraction matches the in-bounds source arithmetic there). -/
def sobel_sum (kernel : List Int) (data : Buffer) (width x y : Nat) : Int :=
  (List.range 9).foldl
    (fun sum k =>
      sum + kernel.getD k 0 *
        (data.getD ((y + k / 3 - 1) * width + (x + k % 3 - 1)) 0 : Int))
    0

/-- Interior-pixel magnitude: `((sx*sx + sy*sy) as f64).sqrt() as u16`.
`f64::sqrt` is correctly rounded and `as u16` truncates toward zero,
saturating at 65535, so on the integer radicand this is
`min (Nat.sqrt radicand) 65535`. -/
def sobel_mag (data : Buffer) (width x y : Nat) : Nat :=
  min (Nat.sqrt ((sobel_sum gxKernel data width x y * sobel_sum gxKernel data width x y +
    sobel_sum gyKernel data width x y * sobel_sum gyKernel data width x y).toNat)) 65535

/-- `sobel_magnitude`: all-zero output for degenerate geometry, otherwise an
all-zero `width*height` vector with each interior pixel (`y` in
`1..height-1`, `x` in `1..width-1`) overwritten by its kernel magnitude. -/
def sobel_magnitude (data : Buffer) (width height : Nat) : List Nat :=
  if width < 3 ∨ height < 3 then List.replicate (width * height) 0
  else
    (List.range' 1 (height - 2)).foldl
      (fun out y =>
        (List.range' 1 (width - 2)).foldl
          (fun out x => out.set (y * width + x) (sobel_mag data width x y)) out)
      (List.replicate (width * height) 0)

/-- `sobelMagnitude` export: invalid geometry yields an all-zero vector of
length `width*height` (`saturating_mul` never saturates for `u32` factors
in a `usize` product). -/
def sobel_magnitude_js (data : Buffer) (width height : Nat) : List Nat :=
  if width = 0 ∨ height = 0 ∨ data.length < width * height then
    List.replicate (width * height) 0
  else sobel_magnitude (data.take (width * height)) width height

/-! ## Perceptual hash (dHash) -/

/-- `dhash_9x8`: 0 unless the tile is exactly 9×8 bytes; otherwise one bit
per row/column-pair, set iff `left < right`.  The source's running `bit`
counter equals `y*8 + x` at the body for row `y`, column `x`. -/
def dhash_9x8 (data : Buffer) : Nat :=
  if data.length ≠ 9 * 8 then 0
  else
    (List.range 8).foldl
      (fun hash y =>
        (List.range 8).foldl
          (fun hash x =>
            if data.getD (y * 9 + x) 0 < data.getD (y * 9 + x + 1) 0 then
              hash ||| (1 <<< (y * 8 + x))
            else hash)
          hash)
      0

/-- One lowercase hexadecimal digit (`0`-`9`, `a`-`f`). -/
def hexDigit (n : Nat) : Char :=
  if n < 10 then Char.ofNat (48 + n) else Char.ofNat (87 + n)

/-- `format!("{:016x}", n)`: 16 lowercase hex digits, zero-padded, most
significant first. -/
def toHex16 (n : Nat) : String :=
  String.mk ((List.range 16).map (fun i => hexDigit (n / 16 ^ (15 - i) % 16)))

/-- `dhash9x8` export: `"0"` for buffers shorter than 72 bytes, otherwise
the hash of the first 72 bytes rendered as 16 hex digits. -/
def dhash_9x8_js (data : Buffer) : String :=
  if data.length < 9 * 8 then "0"
  else toHex16 (dhash_9x8 (data.take (9 * 8)))

/-- Numeric value of a lowercase hex character (reader for `toHex16`). -/
def hexVal (c : Char) : Nat :=
  if 97 ≤ c.toNat then c.toNat - 87 else c.toNat - 48

/-- The repository test's gradient tile: 8 rows of `[0, 16, ..., 128]`
(each left pixel strictly below its right neighbour, so every dHash bit is
set). -/
def gradientTile : Buffer :=
  (List.range 8).flatMap (fun _ => (List.range 9).map (fun x => x * 16))

/-- Read a hex string back into a number, most significant digit first. -/
def fromHex (s : String) : Nat :=
  s.toList.foldl (fun acc c => acc * 16 + hexVal c) 0

/-! ## Real-valued helpers (`f64` modelled over `ℝ`) -/

/-- `f64::clamp(lo, hi)` = `min (max x lo) hi`. -/
noncomputable def clampR (x lo hi : ℝ) : ℝ := min (max x lo) hi

/-- `f64::round`: round half away from zero. -/
noncomputable def f64round (x : ℝ) : ℤ :=
  if x < 0 then -⌊-x + 1 / 2⌋ else ⌊x + 1 / 2⌋

/-- `f64::atan2(y, x)`: principal angle of the point `(x, y)`. -/
noncomputable def f64atan2 (y x : ℝ) : ℝ :=
  if 0 < x then Real.arctan (y / x)
  else if x < 0 then
    (if 0 ≤ y then Real.arctan (y / x) + Real.pi else Real.arctan (y / x) - Real.pi)
  else if 0 < y then Real.pi / 2 else if y < 0 then -(Real.pi / 2) else 0

/-! ## Skew estimation -/

/-- `DeskewEstimate { angle, confidence }`. -/
structure DeskewEstimate where
  angle : ℝ
  confidence : ℝ

/-- The un-rounded `f64` Sobel magnitude at interior pixel `(x, y)`:
`sqrt(sum_x*sum_x + sum_y*sum_y)`. -/
noncomputable def sobelMagR (data : Buffer) (width x y : Nat) : ℝ :=
  Real.sqrt ((sobel_sum gxKernel data width x y : ℝ) *
    (sobel_sum gxKernel data width x y : ℝ) +
    (sobel_sum gyKernel data width x y : ℝ) * (sobel_sum gyKernel data width x y : ℝ))

/-- The histogram bucket of interior pixel `(x, y)`:
`(atan2(sum_y, sum_x).to_degrees() + 90).round().clamp(0, 180) as usize`. -/
noncomputable def histBucket (data : Buffer) (width x y : Nat) : Nat :=
  (max 0 (min 180 (f64round (f64atan2 (sobel_sum gyKernel data width x y : ℝ)
    (sobel_sum gxKernel data width x y : ℝ) * (180 / Real.pi) + 90)))).toNat

/-- `gradient_histogram`: 181 one-degree bins over `[-90°, +90°]` (modelled
as a function `ℕ → ℝ`, zero off the touched bins).  Interior pixels with
Sobel magnitude `≥ 10` accumulate their (un-rounded) magnitude into their
bucket. -/
noncomputable def gradient_histogram (data : Buffer) (width height : Nat) : Nat → ℝ :=
  if width < 3 ∨ height < 3 then fun _ => 0
  else
    (List.range' 1 (height - 2)).foldl
      (fun hist y =>
        (List.range' 1 (width - 2)).foldl
          (fun hist x =>
            if sobelMagR data width x y < 10 then hist
            else fun i =>
              if i = histBucket data width x y then hist i + sobelMagR data width x y
              else hist i)
          hist)
      (fun _ => 0)

open Classical in
/-- The argmax scan of the source: strict improvement only, so the first
maximum is retained and the initial bucket 90 survives an all-zero
histogram. -/
noncomputable def skewScan (hist : Nat → ℝ) : Nat × ℝ :=
  (List.range 181).foldl
    (fun best idx => if hist idx > best.2 then (idx, hist idx) else best)
    (90, (0 : ℝ))

/-- The source's windowed accumulation of `(Σ (idx-90)·w, Σ w)` over bucket
indices `start..=stop`. -/
noncomputable def skewWindowSum (hist : Nat → ℝ) (start stop : Nat) : ℝ × ℝ :=
  (List.range' start (stop + 1 - start)).foldl
    (fun nd (idx : ℕ) => (nd.1 + ((idx : ℝ) - 90) * hist idx, nd.2 + hist idx))
    ((0 : ℝ), (0 : ℝ))

open Classical in
/-- `estimateSkewAngle` export. -/
noncomputable def estimate_skew_angle_js (data : Buffer) (width height : Nat) :
    DeskewEstimate :=
  if width = 0 ∨ height = 0 ∨ data.length < width * height then ⟨0, 0⟩
  else
    let histogram := gradient_histogram (data.take (width * height)) width height
    let best := skewScan histogram
    let start := (max ((best.1 : ℤ) - 3) 0).toNat
    let stop := (min ((best.1 : ℤ) + 3) 180).toNat
    let nd := skewWindowSum histogram start stop
    let angle := if nd.2 > 0 then nd.1 / nd.2 else 0
    let confidence := min (best.2 / (((width * height : ℕ) : ℝ) * 4)) 1
    ⟨angle, confidence⟩

open Classical in
/-- Modelled from the spec (C7): "find the bucket with maximum accumulated
weight (ties resolved by first-encountered/lowest index)", then "compute a
weighted-average angle over a ±3-bucket window centered on the best bucket
(bucket index minus 90, weighted by histogram value); if total window
weight is 0, angle = 0".  Stated by its own argmax (least index attaining
the maximum over buckets 0..180), independently of the code's scan. -/
noncomputable def specSkewAngle (hist : Nat → ℝ) : ℝ :=
  let best := sInf {b : Nat | b ≤ 180 ∧ ∀ j ≤ 180, hist j ≤ hist b}
  let lo := best - 3
  let hi := min (best + 3) 180
  let num := ((List.range' lo (hi + 1 - lo)).map
    (fun (i : ℕ) => ((i : ℝ) - 90) * hist i)).sum
  let den := ((List.range' lo (hi + 1 - lo)).map (fun (i : ℕ) => hist i)).sum
  if den = 0 then 0 else num / den

/-! ## Baseline metrics -/

/-- `BaselineMetricsResult` record. -/
structure BaselineMetricsResult where
  line_consistency : ℝ
  text_line_count : Nat
  spacing_norm : ℝ
  spacing_mad_norm : ℝ
  offset_norm : ℝ
  angle_deg : ℝ
  confidence : ℝ
  peak_sharpness : ℝ
  peaks_y : List ℝ

/-- Ink of row `y`: `Σ_x (255 - data[y*width + x])` in `f64`. -/
noncomputable def rowInk (data : Buffer) (width : Nat) (y : Nat) : ℝ :=
  (List.range width).foldl
    (fun sum x => sum + (255 - (data.getD (y * width + x) 0 : ℝ))) 0

/-- The per-row ink profile (`row_sums` in the source). -/
noncomputable def baselineRowSums (data : Buffer) (width height : Nat) : List ℝ :=
  (List.range height).map (rowInk data width)

/-- Population mean with the source's `len().max(1)` divisor. -/
noncomputable def meanOf (l : List ℝ) : ℝ := l.sum / ((max l.length 1 : ℕ) : ℝ)

/-- Population variance with the source's `len().max(1)` divisor. -/
noncomputable def varianceOf (l : List ℝ) : ℝ :=
  (l.map (fun v => (v - meanOf l) * (v - meanOf l))).sum / ((max l.length 1 : ℕ) : ℝ)

/-- Population standard deviation. -/
noncomputable def stdOf (l : List ℝ) : ℝ := Real.sqrt (varianceOf l)

/-- `sort_by(partial_cmp)` on finite `f64` values: sort ascending. -/
noncomputable def sortR (l : List ℝ) : List ℝ :=
  @List.insertionSort ℝ (· ≤ ·) (Classical.decRel _) l

/-- The source's inline median-of-a-sorted-vector: for even length the mean
of the two central elements, for odd length the central element. -/
noncomputable def medianOfSorted (l : List ℝ) : ℝ :=
  if l.length % 2 = 0 then
    (l.getD (l.length / 2 - 1) 0 + l.getD (l.length / 2) 0) / 2
  else l.getD (l.length / 2) 0

/-- `f64 %` for the nonnegative dividend / positive divisor uses here:
truncated remainder, which equals the floor remainder. -/
noncomputable def fmodR (a b : ℝ) : ℝ := a - b * (⌊a / b⌋ : ℤ)

open Classical in
/-- Peak rows of the row-ink sequence `rs`: `y` in `1..len-1` with
`rs[y] > threshold` and strictly above both neighbours, in ascending order. -/
noncomputable def baselinePeaks (rs : List ℝ) (threshold : ℝ) : List Nat :=
  (List.range' 1 (rs.length - 2)).foldl
    (fun peaks y =>
      if rs.getD y 0 > threshold ∧ rs.getD y 0 > rs.getD (y - 1) 0 ∧
          rs.getD y 0 > rs.getD (y + 1) 0
      then peaks ++ [y] else peaks) []

open Classical in
/-- `baselineMetrics` export. -/
noncomputable def baseline_metrics_js (data : Buffer) (width height : Nat) :
    BaselineMetricsResult :=
  if width = 0 ∨ height = 0 ∨ data.length < width * height then
    ⟨0, 0, 0, 0, 0, 0, 0, 0, []⟩
  else
    let bytes := data.take (width * height)
    let row_sums := baselineRowSums bytes width height
    let mean := meanOf row_sums
    let std := stdOf row_sums
    let line_consistency :=
      if mean > 0 then max (1 - min (std / (mean * 2)) 1) 0 else 0
    let threshold := mean + std * 0.6
    let peaks := baselinePeaks row_sums threshold
    let sharpness_sum :=
      if std > 0 then
        (peaks.map (fun y =>
          (row_sums.getD y 0 -
            0.5 * (row_sums.getD (y - 1) 0 + row_sums.getD (y + 1) 0)) / std)).sum
      else 0
    let sharpness_count : ℝ := if std > 0 then (peaks.length : ℝ) else 0
    let peak_sharpness :=
      if sharpness_count > 0 then sharpness_sum / sharpness_count else 0
    let spacing :=
      if peaks.length > 1 ∧ height > 1 then
        let deltas := sortR ((peaks.zip peaks.tail).map
          (fun pair => ((pair.2 : ℝ) - (pair.1 : ℝ)) / ((height - 1 : ℕ) : ℝ)))
        let spacing_norm := medianOfSorted deltas
        let mad_values := sortR (deltas.map (fun d => |d - spacing_norm|))
        let spacing_mad_norm :=
          if mad_values = [] then 0 else medianOfSorted mad_values
        let offset_norm :=
          if spacing_norm > 0 then
            let offsets := sortR (peaks.map (fun y =>
              fmodR (((y % max (height - 1) 1 : ℕ) : ℝ) / ((height - 1 : ℕ) : ℝ))
                spacing_norm))
            medianOfSorted offsets
          else 0
        (spacing_norm, spacing_mad_norm, offset_norm)
      else ((0 : ℝ), (0 : ℝ), (0 : ℝ))
    let peak_count_score := clampR (((peaks.length : ℝ) - 2) / 8) 0 1
    let spacing_score :=
      if spacing.1 > 0 then max (1 - min (spacing.2.1 / spacing.1) 1) 0 else 0
    let sharpness_score := clampR (peak_sharpness / 3) 0 1
    let confidence := clampR
      (0.4 * spacing_score + 0.35 * sharpness_score + 0.25 * peak_count_score) 0 1
    let peaks_y :=
      if height > 1 then peaks.map (fun y => (y : ℝ) / ((height - 1 : ℕ) : ℝ))
      else []
    ⟨line_consistency, peaks.length, spacing.1, spacing.2.1, spacing.2.2,
      0, confidence, peak_sharpness, peaks_y⟩

/-! ## Column metrics -/

/-- `ColumnMetricsResult { columnCount, columnSeparation }`. -/
structure ColumnMetricsResult where
  column_count : Nat
  column_separation : ℝ

/-- Ink of column `x`: `Σ_y (255 - data[y*width + x])` in `f64`. -/
noncomputable def colInk (data : Buffer) (width height : Nat) (x : Nat) : ℝ :=
  (List.range height).foldl
    (fun sum y => sum + (255 - (data.getD (y * width + x) 0 : ℝ))) 0

open Classical in
/-- `columnMetrics` export: threshold the column-ink distribution at
`mean + 0.7*std`, count contiguous above-threshold bands, and report
`max(bands, 1)` with the ink standard deviation as separation. -/
noncomputable def column_metrics_js (data : Buffer) (width height : Nat) :
    ColumnMetricsResult :=
  if width = 0 ∨ height = 0 ∨ data.length < width * height then ⟨0, 0⟩
  else
    let bytes := data.take (width * height)
    let col_sums := (List.range width).map (colInk bytes width height)
    let mean := meanOf col_sums
    let std := stdOf col_sums
    let threshold := mean + std * 0.7
    let bands := col_sums.foldl
      (fun s val =>
        if val > threshold then (if s.2 then s else (s.1 + 1, true))
        else (s.1, false))
      ((0 : Nat), false)
    ⟨max bands.1 1, std⟩

/-! ## Layout heuristic -/

/-- `LayoutElementResult { id, type, bbox, confidence }`. -/
structure LayoutElementResult where
  id : String
  element_type : String
  bbox : List ℝ
  confidence : ℝ

/-- `compute_mean_std`: `(0,0)` on an empty slice, else population mean and
standard deviation. -/
noncomputable def compute_mean_std (data : Buffer) : ℝ × ℝ :=
  if data.length = 0 then (0, 0)
  else
    let mean := (data.map (fun v => (v : ℝ))).sum / (data.length : ℝ)
    let variance := (data.map (fun v => ((v : ℝ) - mean) * ((v : ℝ) - mean))).sum /
      (data.length : ℝ)
    (mean, Real.sqrt variance)

open Classical in
/-- The content-box scan: every pixel strictly below `threshold` extends the
running min/max box; state is `(min_x, min_y, max_x, max_y, found)` starting
from `(width, height, 0, 0, false)`. -/
noncomputable def contentScan (bytes : Buffer) (width height : Nat) (threshold : ℝ) :
    Nat × Nat × Nat × Nat × Bool :=
  (List.range height).foldl
    (fun s y =>
      (List.range width).foldl
        (fun s x =>
          if (bytes.getD (y * width + x) 0 : ℝ) < threshold then
            (min s.1 x, min s.2.1 y, max s.2.2.1 x, max s.2.2.2.1 y, true)
          else s)
        s)
    (width, height, 0, 0, false)

/-- `detectLayoutElements` export: fixed catalog of 9 named boxes derived
from the content bounding box.  The fractional `f64` literals are modelled
by the decimal rationals they denote (the claims proved below depend only
on their ordering within `[0, 1]`). -/
noncomputable def detect_layout_elements_js (data : Buffer) (width height : Nat) :
    List LayoutElementResult :=
  if width = 0 ∨ height = 0 ∨ data.length < width * height then []
  else
    let bytes := data.take (width * height)
    let ms := compute_mean_std bytes
    let threshold := clampR (ms.1 - ms.2 * 0.5) 10 245
    let scan := contentScan bytes width height threshold
    let found := scan.2.2.2.2
    let x0 : ℝ := if found then (scan.1 : ℝ) else 0
    let y0 : ℝ := if found then (scan.2.1 : ℝ) else 0
    let x1 : ℝ := if found then (scan.2.2.1 : ℝ) else ((width - 1 : ℕ) : ℝ)
    let y1 : ℝ := if found then (scan.2.2.2.1 : ℝ) else ((height - 1 : ℕ) : ℝ)
    let content_width := max (x1 - x0) 1
    let content_height := max (y1 - y0) 1
    let make_box := fun (fx0 fy0 fx1 fy1 : ℝ) =>
      [clampR (x0 + content_width * fx0) 0 ((width - 1 : ℕ) : ℝ),
       clampR (y0 + content_height * fy0) 0 ((height - 1 : ℕ) : ℝ),
       clampR (x0 + content_width * fx1) 0 ((width - 1 : ℕ) : ℝ),
       clampR (y0 + content_height * fy1) 0 ((height - 1 : ℕ) : ℝ)]
    [⟨"page-bounds", "page_bounds",
      [0, 0, ((width - 1 : ℕ) : ℝ), ((height - 1 : ℕ) : ℝ)], 0.6⟩,
     ⟨"text-block", "text_block", [x0, y0, x1, y1], 0.55⟩,
     ⟨"title", "title", make_box 0.12 0.02 0.88 0.14, 0.28⟩,
     ⟨"running-head", "running_head", make_box 0.1 0.0 0.9 0.08, 0.25⟩,
     ⟨"folio", "folio", make_box 0.42 0.9 0.58 0.98, 0.22⟩,
     ⟨"ornament", "ornament", make_box 0.42 0.18 0.58 0.24, 0.2⟩,
     ⟨"drop-cap", "drop_cap", make_box 0.02 0.18 0.1 0.32, 0.18⟩,
     ⟨"footnote", "footnote", make_box 0.05 0.86 0.95 0.98, 0.2⟩,
     ⟨"marginalia", "marginalia", make_box 0.0 0.25 0.08 0.75, 0.18⟩]

/-! ## Claim theorems -/

/-- C1: for every input where `width = 0` or `height = 0` or the buffer is
shorter than `width*height`, every width/height-taking operation returns its
documented zero/empty neutral default (empty sequences for the projections
and layout, an all-zero magnitude vector, angle 0 with confidence 0, an
all-zero/empty baseline record, and zero counts) and, being total, never
raises an error. -/
theorem invalid_inputs_return_neutral_defaults (data : Buffer) (width height : Nat)
    (h : width = 0 ∨ height = 0 ∨ data.length < width * height) :
    projection_profile_y_js data width height = [] ∧
    projection_profile_x_js data width height = [] ∧
    sobel_magnitude_js data width height = List.replicate (width * height) 0 ∧
    estimate_skew_angle_js data width height = ⟨0, 0⟩ ∧
    baseline_metrics_js data width height = ⟨0, 0, 0, 0, 0, 0, 0, 0, []⟩ ∧
    column_metrics_js data width height = ⟨0, 0⟩ ∧
    detect_layout_elements_js data width height = [] := by
  refine ⟨?_, ?_, ?_, ?_, ?_, ?_, ?_⟩ <;>
    simp only [projection_profile_y_js, projection_profile_x_js, sobel_magnitude_js,
      estimate_skew_angle_js, baseline_metrics_js, column_metrics_js,
      detect_layout_elements_js, if_pos h]

/-- C1 witness: the empty buffer with claimed 1×1 geometry is undersized and
yields every neutral default. -/
theorem invalid_inputs_return_neutral_defaults_witness :
    ([] : Buffer).length < 1 * 1 ∧
    (projection_profile_y_js [] 1 1 = [] ∧
     projection_profile_x_js [] 1 1 = [] ∧
     sobel_magnitude_js [] 1 1 = List.replicate (1 * 1) 0 ∧
     estimate_skew_angle_js [] 1 1 = ⟨0, 0⟩ ∧
     baseline_metrics_js [] 1 1 = ⟨0, 0, 0, 0, 0, 0, 0, 0, []⟩ ∧
     column_metrics_js [] 1 1 = ⟨0, 0⟩ ∧
     detect_layout_elements_js [] 1 1 = []) :=
  ⟨by decide,
   invalid_inputs_return_neutral_defaults [] 1 1 (Or.inr (Or.inr (by decide)))⟩

/-- C2 counterexample: on an undersized buffer (the claim quantifies over
every input buffer and dimensions) `columnMetrics` returns
`columnCount = 0`, not `≥ 1`. -/
theorem column_count_zero_on_invalid_input :
    (column_metrics_js [] 1 1).column_count = 0 := by
  simp [column_metrics_js]

/-- C2 amended: for every valid input (`width > 0`, `height > 0`, buffer of
length at least `width*height`) `columnMetrics` returns `columnCount ≥ 1`,
including for a blank image. -/
theorem column_count_ge_one_on_valid (data : Buffer) (width height : Nat)
    (hw : 0 < width) (hh : 0 < height) (hlen : width * height ≤ data.length) :
    1 ≤ (column_metrics_js data width height).column_count := by
  have hcond : ¬(width = 0 ∨ height = 0 ∨ data.length < width * height) := by omega
  simp only [column_metrics_js, if_neg hcond]
  exact Nat.le_max_right _ 1

/-- C2 witness: a blank (all-255) 1×1 image is valid and gets
`columnCount ≥ 1`. -/
theorem column_count_ge_one_on_valid_witness :
    0 < 1 ∧ 1 * 1 ≤ ([255] : Buffer).length ∧
    1 ≤ (column_metrics_js [255] 1 1).column_count :=
  ⟨by decide, by decide,
   column_count_ge_one_on_valid [255] 1 1 (by decide) (by decide) (by decide)⟩

/-- C3 counterexample: on an undersized buffer (the claim quantifies over
every input buffer and dimensions) `detectLayoutElements` returns the empty
sequence, not 9 elements. -/
theorem detect_layout_empty_on_invalid_input :
    (detect_layout_elements_js [] 1 1).length ≠ 9 := by
  simp [detect_layout_elements_js]

/-- C3 amended: for every valid input, `detectLayoutElements` returns
exactly 9 elements, one of which has id `"page-bounds"` and bbox
`[0, 0, width-1, height-1]`. -/
theorem detect_layout_nine_elements_on_valid (data : Buffer) (width height : Nat)
    (hw : 0 < width) (hh : 0 < height) (hlen : width * height ≤ data.length) :
    (detect_layout_elements_js data width height).length = 9 ∧
    ∃ el ∈ detect_layout_elements_js data width height,
      el.id = "page-bounds" ∧
      el.bbox = [0, 0, ((width - 1 : ℕ) : ℝ), ((height - 1 : ℕ) : ℝ)] := by
  have hcond : ¬(width = 0 ∨ height = 0 ∨ data.length < width * height) := by omega
  simp only [detect_layout_elements_js, if_neg hcond]
  exact ⟨rfl, _, List.mem_cons_self _ _, rfl, rfl⟩

/-- A fold preserves any invariant preserved by its step function. -/
theorem foldl_preserves {α β : Type _} (P : β → Prop) (f : β → α → β) :
    ∀ (l : List α) (init : β), P init →
      (∀ b a, a ∈ l → P b → P (f b a)) → P (l.foldl f init)
  | [], _, h, _ => h
  | a :: l, init, h, hstep =>
    foldl_preserves P f l (f init a) (hstep init a (List.mem_cons_self a l) h)
      (fun b x hx hb => hstep b x (List.mem_cons_of_mem a hx) hb)

/-- The content scan keeps `max_x ≤ width-1` and `max_y ≤ height-1`, and
once a pixel has matched the box is ordered. -/
theorem contentScan_bounds (bytes : Buffer) (width height : Nat) (threshold : ℝ) :
    (contentScan bytes width height threshold).2.2.1 ≤ width - 1 ∧
    (contentScan bytes width height threshold).2.2.2.1 ≤ height - 1 ∧
    ((contentScan bytes width height threshold).2.2.2.2 = true →
      (contentScan bytes width height threshold).1 ≤
        (contentScan bytes width height threshold).2.2.1 ∧
      (contentScan bytes width height threshold).2.1 ≤
        (contentScan bytes width height threshold).2.2.2.1) := by
  unfold contentScan
  apply foldl_preserves (fun s : Nat × Nat × Nat × Nat × Bool =>
    s.2.2.1 ≤ width - 1 ∧ s.2.2.2.1 ≤ height - 1 ∧
    (s.2.2.2.2 = true → s.1 ≤ s.2.2.1 ∧ s.2.1 ≤ s.2.2.2.1))
  · exact ⟨Nat.zero_le _, Nat.zero_le _, by simp⟩
  · intro s y hy hs
    have hy' : y < height := List.mem_range.mp hy
    apply foldl_preserves (fun s : Nat × Nat × Nat × Nat × Bool =>
      s.2.2.1 ≤ width - 1 ∧ s.2.2.2.1 ≤ height - 1 ∧
      (s.2.2.2.2 = true → s.1 ≤ s.2.2.1 ∧ s.2.1 ≤ s.2.2.2.1))
    · exact hs
    · intro s' x hx hs'
      have hx' : x < width := List.mem_range.mp hx
      by_cases hpix : ((bytes.getD (y * width + x) 0 : ℝ) < threshold)
      · rw [if_pos hpix]
        refine ⟨?_, ?_, fun _ => ⟨?_, ?_⟩⟩
        · exact max_le hs'.1 (by omega)
        · exact max_le hs'.2.1 (by omega)
        · exact le_trans (min_le_right _ _) (le_max_right _ _)
        · exact le_trans (min_le_right _ _) (le_max_right _ _)
      · rwa [if_neg hpix]

/-- `clamp(v, 0, hi)` lands in `[0, hi]` when `0 ≤ hi`. -/
theorem clampR_mem (x hi : ℝ) (hhi : 0 ≤ hi) :
    0 ≤ clampR x 0 hi ∧ clampR x 0 hi ≤ hi :=
  ⟨le_min (le_max_right x 0) hhi, min_le_right _ _⟩

/-- `clamp` is monotone in its argument. -/
theorem clampR_mono (lo hi : ℝ) {x y : ℝ} (h : x ≤ y) :
    clampR x lo hi ≤ clampR y lo hi :=
  min_le_min (max_le_max h le_rfl) le_rfl

/-- Bounds for one axis of a `make_box` sub-box: with a nonnegative origin
offset scale and ordered fractions, both clamped coordinates are ordered
and inside `[0, W]`. -/
theorem make_box_bounds (x0 c f g W : ℝ) (hW : 0 ≤ W) (hc : 0 ≤ c) (hfg : f ≤ g) :
    0 ≤ clampR (x0 + c * f) 0 W ∧
    clampR (x0 + c * f) 0 W ≤ clampR (x0 + c * g) 0 W ∧
    clampR (x0 + c * g) 0 W ≤ W :=
  ⟨(clampR_mem _ _ hW).1,
   clampR_mono 0 W (by nlinarith),
   (clampR_mem _ _ hW).2⟩

/-- Bounds for a full `make_box` sub-box. -/
theorem make_box_bbox_ok (x0 y0 cw ch W H f1 g1 f2 g2 : ℝ)
    (hW : 0 ≤ W) (hH : 0 ≤ H) (hcw : 0 ≤ cw) (hch : 0 ≤ ch)
    (h1 : f1 ≤ g1) (h2 : f2 ≤ g2) :
    ∃ a b c d : ℝ,
      [clampR (x0 + cw * f1) 0 W, clampR (y0 + ch * f2) 0 H,
       clampR (x0 + cw * g1) 0 W, clampR (y0 + ch * g2) 0 H] = [a, b, c, d] ∧
      0 ≤ a ∧ a ≤ c ∧ c ≤ W ∧ 0 ≤ b ∧ b ≤ d ∧ d ≤ H := by
  refine ⟨_, _, _, _, rfl, ?_, ?_, ?_, ?_, ?_, ?_⟩
  exacts [(make_box_bounds x0 cw f1 g1 W hW hcw h1).1,
    (make_box_bounds x0 cw f1 g1 W hW hcw h1).2.1,
    (make_box_bounds x0 cw f1 g1 W hW hcw h1).2.2,
    (make_box_bounds y0 ch f2 g2 H hH hch h2).1,
    (make_box_bounds y0 ch f2 g2 H hH hch h2).2.1,
    (make_box_bounds y0 ch f2 g2 H hH hch h2).2.2]

/-- Every element of the fixed layout catalog has an ordered bbox inside
`[0, W] × [0, H]`, provided the content box `[x0, y0, x1, y1]` is ordered
and inside those bounds. -/
theorem layout_catalog_bboxes (x0 y0 x1 y1 W H : ℝ)
    (hx0 : 0 ≤ x0) (hx01 : x0 ≤ x1) (hx1W : x1 ≤ W)
    (hy0 : 0 ≤ y0) (hy01 : y0 ≤ y1) (hy1H : y1 ≤ H) :
    ∀ el ∈ ([⟨"page-bounds", "page_bounds", [0, 0, W, H], 0.6⟩,
      ⟨"text-block", "text_block", [x0, y0, x1, y1], 0.55⟩,
      ⟨"title", "title",
        [clampR (x0 + max (x1 - x0) 1 * 0.12) 0 W,
         clampR (y0 + max (y1 - y0) 1 * 0.02) 0 H,
         clampR (x0 + max (x1 - x0) 1 * 0.88) 0 W,
         clampR (y0 + max (y1 - y0) 1 * 0.14) 0 H], 0.28⟩,
      ⟨"running-head", "running_head",
        [clampR (x0 + max (x1 - x0) 1 * 0.1) 0 W,
         clampR (y0 + max (y1 - y0) 1 * 0.0) 0 H,
         clampR (x0 + max (x1 - x0) 1 * 0.9) 0 W,
         clampR (y0 + max (y1 - y0) 1 * 0.08) 0 H], 0.25⟩,
      ⟨"folio", "folio",
        [clampR (x0 + max (x1 - x0) 1 * 0.42) 0 W,
         clampR (y0 + max (y1 - y0) 1 * 0.9) 0 H,
         clampR (x0 + max (x1 - x0) 1 * 0.58) 0 W,
         clampR (y0 + max (y1 - y0) 1 * 0.98) 0 H], 0.22⟩,
      ⟨"ornament", "ornament",
        [clampR (x0 + max (x1 - x0) 1 * 0.42) 0 W,
         clampR (y0 + max (y1 - y0) 1 * 0.18) 0 H,
         clampR (x0 + max (x1 - x0) 1 * 0.58) 0 W,
         clampR (y0 + max (y1 - y0) 1 * 0.24) 0 H], 0.2⟩,
      ⟨"drop-cap", "drop_cap",
        [clampR (x0 + max (x1 - x0) 1 * 0.02) 0 W,
         clampR (y0 + max (y1 - y0) 1 * 0.18) 0 H,
         clampR (x0 + max (x1 - x0) 1 * 0.1) 0 W,
         clampR (y0 + max (y1 - y0) 1 * 0.32) 0 H], 0.18⟩,
      ⟨"footnote", "footnote",
        [clampR (x0 + max (x1 - x0) 1 * 0.05) 0 W,
         clampR (y0 + max (y1 - y0) 1 * 0.86) 0 H,
         clampR (x0 + max (x1 - x0) 1 * 0.95) 0 W,
         clampR (y0 + max (y1 - y0) 1 * 0.98) 0 H], 0.2⟩,
      ⟨"marginalia", "marginalia",
        [clampR (x0 + max (x1 - x0) 1 * 0.0) 0 W,
         clampR (y0 + max (y1 - y0) 1 * 0.25) 0 H,
         clampR (x0 + max (x1 - x0) 1 * 0.08) 0 W,
         clampR (y0 + max (y1 - y0) 1 * 0.75) 0 H], 0.18⟩] : List LayoutElementResult),
      ∃ a b c d : ℝ, el.bbox = [a, b, c, d] ∧
        0 ≤ a ∧ a ≤ c ∧ c ≤ W ∧ 0 ≤ b ∧ b ≤ d ∧ d ≤ H := by
  have hW : (0 : ℝ) ≤ W := le_trans hx0 (le_trans hx01 hx1W)
  have hH : (0 : ℝ) ≤ H := le_trans hy0 (le_trans hy01 hy1H)
  have hcw : (0 : ℝ) ≤ max (x1 - x0) 1 := le_trans zero_le_one (le_max_right _ _)
  have hch : (0 : ℝ) ≤ max (y1 - y0) 1 := le_trans zero_le_one (le_max_right _ _)
  intro el hel
  simp only [List.mem_cons, List.not_mem_nil, or_false] at hel
  rcases hel with rfl | rfl | rfl | rfl | rfl | rfl | rfl | rfl | rfl
  · exact ⟨0, 0, W, H, rfl, le_rfl, hW, le_rfl, le_rfl, hH, le_rfl⟩
  · exact ⟨x0, y0, x1, y1, rfl, hx0, hx01, hx1W, hy0, hy01, hy1H⟩
  · exact make_box_bbox_ok x0 y0 _ _ W H _ _ _ _ hW hH hcw hch
      (by norm_num) (by norm_num)
  · exact make_box_bbox_ok x0 y0 _ _ W H _ _ _ _ hW hH hcw hch
      (by norm_num) (by norm_num)
  · exact make_box_bbox_ok x0 y0 _ _ W H _ _ _ _ hW hH hcw hch
      (by norm_num) (by norm_num)
  · exact make_box_bbox_ok x0 y0 _ _ W H _ _ _ _ hW hH hcw hch
      (by norm_num) (by norm_num)
  · exact make_box_bbox_ok x0 y0 _ _ W H _ _ _ _ hW hH hcw hch
      (by norm_num) (by norm_num)
  · exact make_box_bbox_ok x0 y0 _ _ W H _ _ _ _ hW hH hcw hch
      (by norm_num) (by norm_num)
  · exact make_box_bbox_ok x0 y0 _ _ W H _ _ _ _ hW hH hcw hch
      (by norm_num) (by norm_num)

/-- C3 witness: a single-pixel image is valid and gets the 9-element catalog
with the `"page-bounds"` box. -/
theorem detect_layout_nine_elements_on_valid_witness :
    0 < 1 ∧ 1 * 1 ≤ ([255] : Buffer).length ∧
    ((detect_layout_elements_js [255] 1 1).length = 9 ∧
     ∃ el ∈ detect_layout_elements_js [255] 1 1,
       el.id = "page-bounds" ∧
       el.bbox = [0, 0, ((1 - 1 : ℕ) : ℝ), ((1 - 1 : ℕ) : ℝ)]) :=
  ⟨by decide, by decide,
   detect_layout_nine_elements_on_valid [255] 1 1 (by decide) (by decide) (by decide)⟩

/-- C10: for every valid input, every element returned by
`detectLayoutElements` has a bbox of exactly 4 coordinates satisfying
`0 ≤ x0 ≤ x1 ≤ width-1` and `0 ≤ y0 ≤ y1 ≤ height-1`: all sub-boxes are
ordered and clamped within the image bounds. -/
theorem detect_layout_bboxes_ordered_and_clamped (data : Buffer) (width height : Nat)
    (hw : 0 < width) (hh : 0 < height) (hlen : width * height ≤ data.length) :
    ∀ el ∈ detect_layout_elements_js data width height,
      ∃ a b c d : ℝ, el.bbox = [a, b, c, d] ∧
        0 ≤ a ∧ a ≤ c ∧ c ≤ ((width - 1 : ℕ) : ℝ) ∧
        0 ≤ b ∧ b ≤ d ∧ d ≤ ((height - 1 : ℕ) : ℝ) := by
  have hcond : ¬(width = 0 ∨ height = 0 ∨ data.length < width * height) := by omega
  intro el hel
  have hsb := contentScan_bounds (data.take (width * height)) width height
    (clampR ((compute_mean_std (data.take (width * height))).1 -
      (compute_mean_std (data.take (width * height))).2 * 0.5) 10 245)
  by_cases hf : (contentScan (data.take (width * height)) width height
      (clampR ((compute_mean_std (data.take (width * height))).1 -
        (compute_mean_std (data.take (width * height))).2 * 0.5) 10 245)).2.2.2.2 = true
  · simp only [detect_layout_elements_js, if_neg hcond, hf, if_true] at hel
    exact layout_catalog_bboxes _ _ _ _ _ _ (Nat.cast_nonneg _)
      (Nat.cast_le.mpr (hsb.2.2 hf).1) (Nat.cast_le.mpr hsb.1)
      (Nat.cast_nonneg _) (Nat.cast_le.mpr (hsb.2.2 hf).2)
      (Nat.cast_le.mpr hsb.2.1) el hel
  · simp only [Bool.not_eq_true] at hf
    simp only [detect_layout_elements_js, if_neg hcond, hf, Bool.false_eq_true,
      if_false] at hel
    exact layout_catalog_bboxes _ _ _ _ _ _ le_rfl (Nat.cast_nonneg _) le_rfl
      le_rfl (Nat.cast_nonneg _) le_rfl el hel

/-- C10 witness: a single-pixel image is valid and every returned bbox is
ordered and clamped. -/
theorem detect_layout_bboxes_ordered_and_clamped_witness :
    0 < 1 ∧ 1 * 1 ≤ ([255] : Buffer).length ∧
    ∀ el ∈ detect_layout_elements_js [255] 1 1,
      ∃ a b c d : ℝ, el.bbox = [a, b, c, d] ∧
        0 ≤ a ∧ a ≤ c ∧ c ≤ ((1 - 1 : ℕ) : ℝ) ∧
        0 ≤ b ∧ b ≤ d ∧ d ≤ ((1 - 1 : ℕ) : ℝ) :=
  ⟨by decide, by decide,
   detect_layout_bboxes_ordered_and_clamped [255] 1 1 (by decide) (by decide)
     (by decide)⟩

/-! ### Fold/set lemmas for the Sobel output vector -/

/-- Setting one index leaves `getD` at another index unchanged. -/
theorem getD_set_ne' {α : Type _} (l : List α) (i j : Nat) (v d : α) (h : i ≠ j) :
    (l.set i v).getD j d = l.getD j d := by
  simp [List.getD_eq_getElem?_getD, List.getElem?_set_ne h]

/-- Setting an in-bounds index makes `getD` there return the new value. -/
theorem getD_set_self' {α : Type _} (l : List α) (i : Nat) (v d : α)
    (h : i < l.length) : (l.set i v).getD i d = v := by
  simp [List.getD_eq_getElem?_getD, List.getElem?_set_eq_of_lt v h]

/-- `getD` of an all-zero replicate is 0 (in or out of range). -/
theorem getD_replicate_zero (n i : Nat) : (List.replicate n (0 : Nat)).getD i 0 = 0 := by
  simp only [List.getD_eq_getElem?_getD, List.getElem?_replicate]
  split <;> simp

/-- A fold of single-index writes preserves the length. -/
theorem foldl_set_length {α : Type _} (g : Nat → Nat) (f : Nat → α) :
    ∀ (l : List Nat) (out : List α),
      (l.foldl (fun o j => o.set (g j) (f j)) out).length = out.length
  | [], _ => rfl
  | a :: l, out => by
    rw [List.foldl_cons, foldl_set_length g f l]
    exact List.length_set ..

/-- A fold of single-index writes leaves untouched indices unchanged. -/
theorem foldl_set_getD_ne {α : Type _} (g : Nat → Nat) (f : Nat → α) (d : α) :
    ∀ (l : List Nat) (out : List α) (i : Nat), (∀ j ∈ l, g j ≠ i) →
      (l.foldl (fun o j => o.set (g j) (f j)) out).getD i d = out.getD i d
  | [], _, _, _ => rfl
  | a :: l, out, i, h => by
    rw [List.foldl_cons,
      foldl_set_getD_ne g f d l _ i (fun j hj => h j (List.mem_cons_of_mem a hj))]
    exact getD_set_ne' out (g a) i (f a) d (h a (List.mem_cons_self a l))

/-- A fold of single-index writes over distinct indices stores each value. -/
theorem foldl_set_getD_mem {α : Type _} (g : Nat → Nat) (f : Nat → α) (d : α) :
    ∀ (l : List Nat) (out : List α) (i : Nat), l.Nodup → i ∈ l →
      (∀ j ∈ l, g j = g i → j = i) → g i < out.length →
      (l.foldl (fun o j => o.set (g j) (f j)) out).getD (g i) d = f i
  | [], _, _, _, hi, _, _ => absurd hi (List.not_mem_nil _)
  | a :: l, out, i, hnd, hi, hinj, hlen => by
    rw [List.foldl_cons]
    rcases List.mem_cons.mp hi with rfl | hi'
    · rw [foldl_set_getD_ne g f d l _ (g i) (fun j hj hgj => by
        have hja : j = i := hinj j (List.mem_cons_of_mem _ hj) hgj
        exact (List.nodup_cons.mp hnd).1 (hja ▸ hj))]
      exact getD_set_self' out (g i) (f i) d hlen
    · exact foldl_set_getD_mem g f d l _ i (List.nodup_cons.mp hnd).2 hi'
        (fun j hj => hinj j (List.mem_cons_of_mem _ hj))
        (by rw [List.length_set]; exact hlen)

/-- Row-major indices with in-row offsets below the width decompose
uniquely. -/
theorem grid_index_inj {w x x' y y' : Nat} (hx : x < w) (hx' : x' < w)
    (h : y * w + x = y' * w + x') : x = x' ∧ y = y' := by
  have h0 : x + y * w = x' + y' * w := by omega
  have h1 : (x + y * w) % w = (x' + y' * w) % w := by rw [h0]
  rw [Nat.add_mul_mod_self_right, Nat.add_mul_mod_self_right,
    Nat.mod_eq_of_lt hx, Nat.mod_eq_of_lt hx'] at h1
  refine ⟨h1, Nat.eq_of_mul_eq_mul_right (show 0 < w by omega) ?_⟩
  omega

/-- The Sobel row loop preserves the output length. -/
theorem sobel_rows_length (data : Buffer) (w : Nat) :
    ∀ (ys : List Nat) (out : List Nat),
      (ys.foldl (fun o y => (List.range' 1 (w - 2)).foldl
        (fun o x => o.set (y * w + x) (sobel_mag data w x y)) o) out).length
        = out.length
  | [], _ => rfl
  | a :: ys, out => by
    rw [List.foldl_cons, sobel_rows_length data w ys]
    exact foldl_set_length (fun x => a * w + x) (fun x => sobel_mag data w x a)
      (List.range' 1 (w - 2)) out

/-- The Sobel row loop never touches an index outside its written cells. -/
theorem sobel_rows_getD_ne (data : Buffer) (w d : Nat) :
    ∀ (ys : List Nat) (out : List Nat) (i : Nat),
      (∀ y ∈ ys, ∀ x, 1 ≤ x → x < 1 + (w - 2) → y * w + x ≠ i) →
      ((ys.foldl (fun o y => (List.range' 1 (w - 2)).foldl
          (fun o x => o.set (y * w + x) (sobel_mag data w x y)) o) out).getD i d)
        = out.getD i d
  | [], _, _, _ => rfl
  | a :: ys, out, i, h => by
    rw [List.foldl_cons, sobel_rows_getD_ne data w d ys _ i
      (fun y hy => h y (List.mem_cons_of_mem a hy))]
    exact foldl_set_getD_ne (fun x => a * w + x) (fun x => sobel_mag data w x a) d
      (List.range' 1 (w - 2)) out i
      (fun x hx => h a (List.mem_cons_self a ys) x (List.mem_range'_1.mp hx).1
        (List.mem_range'_1.mp hx).2)

/-- The Sobel row loop stores each interior cell's magnitude. -/
theorem sobel_rows_getD_mem (data : Buffer) (w : Nat) :
    ∀ (ys : List Nat) (out : List Nat) (x0 y0 : Nat), ys.Nodup → y0 ∈ ys →
      1 ≤ x0 → x0 < 1 + (w - 2) → y0 * w + x0 < out.length →
      ((ys.foldl (fun o y => (List.range' 1 (w - 2)).foldl
          (fun o x => o.set (y * w + x) (sobel_mag data w x y)) o) out).getD
        (y0 * w + x0) 0) = sobel_mag data w x0 y0
  | [], _, _, _, _, hy0, _, _, _ => absurd hy0 (List.not_mem_nil _)
  | a :: ys, out, x0, y0, hnd, hy0, hx1, hx2, hlen => by
    rw [List.foldl_cons]
    rcases List.mem_cons.mp hy0 with rfl | hy0'
    · rw [sobel_rows_getD_ne data w 0 ys _ (y0 * w + x0) (fun y hy x h1x h2x heq => by
        obtain ⟨hxx, hyy⟩ := grid_index_inj (w := w) (by omega) (by omega) heq
        exact (List.nodup_cons.mp hnd).1 (hyy ▸ hy))]
      exact foldl_set_getD_mem (fun x => y0 * w + x) (fun x => sobel_mag data w x y0)
        0 (List.range' 1 (w - 2)) out x0 (List.nodup_range' ..)
        (List.mem_range'_1.mpr ⟨hx1, hx2⟩) (fun j _ hgj => Nat.add_left_cancel hgj)
        hlen
    · exact sobel_rows_getD_mem data w ys _ x0 y0 (List.nodup_cons.mp hnd).2 hy0'
        hx1 hx2 (by rw [foldl_set_length (fun x => a * w + x)
          (fun x => sobel_mag data w x a)]; exact hlen)

/-- `sobel_magnitude` always returns `width*height` entries. -/
theorem sobel_magnitude_length (data : Buffer) (w h : Nat) :
    (sobel_magnitude data w h).length = w * h := by
  unfold sobel_magnitude
  split
  · exact List.length_replicate ..
  · rw [sobel_rows_length]
    exact List.length_replicate ..

/-- `sobel_magnitude` is all-zero for degenerate geometry. -/
theorem sobel_magnitude_small (data : Buffer) (w h : Nat) (hwh : w < 3 ∨ h < 3)
    (i : Nat) : (sobel_magnitude data w h).getD i 0 = 0 := by
  unfold sobel_magnitude
  rw [if_pos hwh]
  exact getD_replicate_zero ..

/-- `sobel_magnitude` leaves every border pixel 0. -/
theorem sobel_magnitude_border (data : Buffer) (w h : Nat) (hw : 3 ≤ w) (hh : 3 ≤ h)
    (x y : Nat) (hx : x < w) (hy : y < h)
    (hb : x = 0 ∨ x = w - 1 ∨ y = 0 ∨ y = h - 1) :
    (sobel_magnitude data w h).getD (y * w + x) 0 = 0 := by
  unfold sobel_magnitude
  rw [if_neg (by omega), sobel_rows_getD_ne data w 0 _ _ _
    (fun y' hy' x' h1x' h2x' heq => by
      obtain ⟨hxx, hyy⟩ := grid_index_inj (w := w) (by omega) hx heq
      have hy'' := List.mem_range'_1.mp hy'
      omega)]
  exact getD_replicate_zero ..

/-- `sobel_magnitude` stores each interior pixel's saturated `Nat.sqrt`
magnitude. -/
theorem sobel_magnitude_interior (data : Buffer) (w h : Nat) (hw : 3 ≤ w)
    (hh : 3 ≤ h) (x y : Nat) (hx1 : 1 ≤ x) (hx2 : x ≤ w - 2) (hy1 : 1 ≤ y)
    (hy2 : y ≤ h - 2) :
    (sobel_magnitude data w h).getD (y * w + x) 0 = sobel_mag data w x y := by
  unfold sobel_magnitude
  rw [if_neg (by omega)]
  apply sobel_rows_getD_mem data w _ _ x y (List.nodup_range' ..)
    (List.mem_range'_1.mpr ⟨hy1, by omega⟩) hx1 (by omega)
  rw [List.length_replicate]
  have h1 : y * w ≤ (h - 2) * w := Nat.mul_le_mul_right w hy2
  have h2 : (h - 2) * w + 2 * w = h * w := by
    rw [← Nat.add_mul]
    congr 1
    omega
  have h3 : w * h = h * w := Nat.mul_comm w h
  omega

/-- C5 counterexample: at the 3×3 input `[0,1,0, 0,0,1, 0,0,0]` the interior
pixel has Sobel responses `Gx = Gy = 2`, so `round(sqrt(Gx²+Gy²))` is
`round(sqrt 8) = 3`, but the code stores 2 (the `as u16` cast truncates the
square root instead of rounding it). -/
theorem sobel_magnitude_not_rounded :
    (sobel_magnitude [0, 1, 0, 0, 0, 1, 0, 0, 0] 3 3).getD (1 * 3 + 1) 0 = 2 ∧
    sobel_sum gxKernel [0, 1, 0, 0, 0, 1, 0, 0, 0] 3 1 1 = 2 ∧
    sobel_sum gyKernel [0, 1, 0, 0, 0, 1, 0, 0, 0] 3 1 1 = 2 ∧
    round (Real.sqrt (2 ^ 2 + 2 ^ 2)) = 3 ∧ (2 : ℤ) ≠ 3 := by
  have hgx : sobel_sum gxKernel [0, 1, 0, 0, 0, 1, 0, 0, 0] 3 1 1 = 2 := by decide
  have hgy : sobel_sum gyKernel [0, 1, 0, 0, 0, 1, 0, 0, 0] 3 1 1 = 2 := by decide
  have hsqrt : Nat.sqrt 8 = 2 := by
    have h1 : 2 ≤ Nat.sqrt 8 := Nat.le_sqrt.mpr (by norm_num)
    have h2 : Nat.sqrt 8 < 3 := Nat.sqrt_lt.mpr (by norm_num)
    omega
  have hmag : (sobel_magnitude [0, 1, 0, 0, 0, 1, 0, 0, 0] 3 3).getD (1 * 3 + 1) 0 =
      sobel_mag [0, 1, 0, 0, 0, 1, 0, 0, 0] 3 1 1 :=
    sobel_magnitude_interior _ 3 3 (by decide) (by decide) 1 1 (by decide)
      (by decide) (by decide) (by decide)
  refine ⟨?_, hgx, hgy, ?_, by decide⟩
  · rw [hmag]
    unfold sobel_mag
    rw [hgx, hgy, show ((2 * 2 + 2 * 2 : Int)).toNat = 8 by decide, hsqrt]
    decide
  have h8 : ((2 : ℝ) ^ 2 + 2 ^ 2) = 8 := by norm_num
  rw [h8, round_eq]
  have hlo : (2.5 : ℝ) ≤ Real.sqrt 8 := by
    nlinarith [Real.sq_sqrt (by norm_num : (0 : ℝ) ≤ (8 : ℝ)),
      Real.sqrt_nonneg (8 : ℝ)]
  have hhi : Real.sqrt 8 < 3.5 := by
    nlinarith [Real.sq_sqrt (by norm_num : (0 : ℝ) ≤ (8 : ℝ)),
      Real.sqrt_nonneg (8 : ℝ)]
  rw [Int.floor_eq_iff]
  constructor
  · push_cast
    linarith
  · push_cast
    linarith

/-- C5 amended: for every valid input with `width ≥ 3` and `height ≥ 3`,
`sobelMagnitude` assigns each interior pixel the value
`floor(sqrt(Gx²+Gy²))` (the square root truncated toward zero) saturated to
an unsigned 16-bit integer — not `round(...)` — and every border pixel 0. -/
theorem sobel_magnitude_interior_floor_sqrt (data : Buffer) (width height : Nat)
    (hw : 3 ≤ width) (hh : 3 ≤ height) (hlen : width * height ≤ data.length) :
    (∀ x y, 1 ≤ x → x ≤ width - 2 → 1 ≤ y → y ≤ height - 2 →
      (sobel_magnitude_js data width height).getD (y * width + x) 0 =
        min (Nat.sqrt ((sobel_sum gxKernel (data.take (width * height)) width x y *
          sobel_sum gxKernel (data.take (width * height)) width x y +
          sobel_sum gyKernel (data.take (width * height)) width x y *
          sobel_sum gyKernel (data.take (width * height)) width x y).toNat))
          65535) ∧
    (∀ x y, x < width → y < height →
      (x = 0 ∨ x = width - 1 ∨ y = 0 ∨ y = height - 1) →
      (sobel_magnitude_js data width height).getD (y * width + x) 0 = 0) := by
  have hcond : ¬(width = 0 ∨ height = 0 ∨ data.length < width * height) := by omega
  constructor
  · intro x y hx1 hx2 hy1 hy2
    simp only [sobel_magnitude_js, if_neg hcond]
    exact sobel_magnitude_interior _ width height hw hh x y hx1 hx2 hy1 hy2
  · intro x y hx hy hb
    simp only [sobel_magnitude_js, if_neg hcond]
    exact sobel_magnitude_border _ width height hw hh x y hx hy hb

/-- C5 witness: on the counterexample image (a valid 3×3 input) the interior
formula and the border zeros hold concretely. -/
theorem sobel_magnitude_interior_floor_sqrt_witness :
    3 ≤ 3 ∧ 3 * 3 ≤ ([0, 1, 0, 0, 0, 1, 0, 0, 0] : Buffer).length ∧
    ((sobel_magnitude_js [0, 1, 0, 0, 0, 1, 0, 0, 0] 3 3).getD (1 * 3 + 1) 0 =
      min (Nat.sqrt ((sobel_sum gxKernel
        (([0, 1, 0, 0, 0, 1, 0, 0, 0] : Buffer).take (3 * 3)) 3 1 1 *
        sobel_sum gxKernel
        (([0, 1, 0, 0, 0, 1, 0, 0, 0] : Buffer).take (3 * 3)) 3 1 1 +
        sobel_sum gyKernel
        (([0, 1, 0, 0, 0, 1, 0, 0, 0] : Buffer).take (3 * 3)) 3 1 1 *
        sobel_sum gyKernel
        (([0, 1, 0, 0, 0, 1, 0, 0, 0] : Buffer).take (3 * 3)) 3 1 1).toNat))
        65535) ∧
    (sobel_magnitude_js [0, 1, 0, 0, 0, 1, 0, 0, 0] 3 3).getD (0 * 3 + 0) 0 = 0 :=
  ⟨by decide, by decide,
   (sobel_magnitude_interior_floor_sqrt [0, 1, 0, 0, 0, 1, 0, 0, 0] 3 3
     (by decide) (by decide) (by decide)).1 1 1 (by decide) (by decide)
     (by decide) (by decide),
   (sobel_magnitude_interior_floor_sqrt [0, 1, 0, 0, 0, 1, 0, 0, 0] 3 3
     (by decide) (by decide) (by decide)).2 0 0 (by decide) (by decide)
     (Or.inl rfl)⟩

/-- C6: for every input, the `sobelMagnitude` output has length exactly
`width*height`; when `width ≥ 3` and `height ≥ 3` every border row/column
entry is 0; when `width < 3` or `height < 3` every entry is 0. -/
theorem sobel_magnitude_output_shape (data : Buffer) (width height : Nat) :
    (sobel_magnitude_js data width height).length = width * height ∧
    (3 ≤ width → 3 ≤ height → ∀ x y, x < width → y < height →
      (x = 0 ∨ x = width - 1 ∨ y = 0 ∨ y = height - 1) →
      (sobel_magnitude_js data width height).getD (y * width + x) 0 = 0) ∧
    (width < 3 ∨ height < 3 →
      ∀ i, (sobel_magnitude_js data width height).getD i 0 = 0) := by
  by_cases hcond : width = 0 ∨ height = 0 ∨ data.length < width * height
  · simp only [sobel_magnitude_js, if_pos hcond]
    exact ⟨List.length_replicate .., fun _ _ x y _ _ _ => getD_replicate_zero ..,
      fun _ i => getD_replicate_zero ..⟩
  · simp only [sobel_magnitude_js, if_neg hcond]
    exact ⟨sobel_magnitude_length ..,
      fun hw hh x y hx hy hb => sobel_magnitude_border _ width height hw hh x y hx hy hb,
      fun hwh i => sobel_magnitude_small _ width height hwh i⟩

/-- C6 witness: concrete instances of all three conjuncts. -/
theorem sobel_magnitude_output_shape_witness :
    (sobel_magnitude_js [0, 1, 0, 0, 0, 1, 0, 0, 0] 3 3).length = 3 * 3 ∧
    (sobel_magnitude_js [0, 1, 0, 0, 0, 1, 0, 0, 0] 3 3).getD (0 * 3 + 1) 0 = 0 ∧
    (sobel_magnitude_js [9, 9] 2 1).getD 0 0 = 0 :=
  ⟨(sobel_magnitude_output_shape [0, 1, 0, 0, 0, 1, 0, 0, 0] 3 3).1,
   (sobel_magnitude_output_shape [0, 1, 0, 0, 0, 1, 0, 0, 0] 3 3).2.1
     (by decide) (by decide) 1 0 (by decide) (by decide) (Or.inr (Or.inr (Or.inl rfl))),
   (sobel_magnitude_output_shape [9, 9] 2 1).2.2 (Or.inl (by decide)) 0⟩

/-! ### dHash bit-level lemmas -/

/-- `testBit` of a shifted one-bit. -/
theorem testBit_one_shl (n i : Nat) : Nat.testBit (1 <<< n) i = decide (n = i) := by
  rw [Nat.shiftLeft_eq, one_mul]
  rcases eq_or_ne n i with rfl | h
  · simp [Nat.testBit_two_pow_self]
  · simp [Nat.testBit_two_pow_of_ne h, h]

/-- `Bool.or` as a disjunction of equalities. -/
theorem bool_or_true_iff (a b : Bool) : (a || b) = true ↔ a = true ∨ b = true := by
  simp

/-- Characterisation of one row of conditional bit-sets. -/
theorem testBit_foldl_or {q : Nat → Prop} [DecidablePred q] (g : Nat → Nat) :
    ∀ (l : List Nat) (acc i : Nat),
      (Nat.testBit (l.foldl (fun h b => if q b then h ||| (1 <<< g b) else h) acc) i
        = true ↔ Nat.testBit acc i = true ∨ ∃ b ∈ l, q b ∧ g b = i)
  | [], acc, i => by simp
  | a :: l, acc, i => by
    rw [List.foldl_cons, testBit_foldl_or g l _ i]
    by_cases hq : q a
    · rw [if_pos hq, Nat.testBit_or, testBit_one_shl]
      constructor
      · rintro (h | ⟨b, hb, hqb, hgb⟩)
        · rcases bool_or_true_iff .. |>.mp h with h' | h'
          · exact Or.inl h'
          · exact Or.inr ⟨a, List.mem_cons_self .., hq, of_decide_eq_true h'⟩
        · exact Or.inr ⟨b, List.mem_cons_of_mem _ hb, hqb, hgb⟩
      · rintro (h | ⟨b, hb, hqb, hgb⟩)
        · exact Or.inl ((bool_or_true_iff ..).mpr (Or.inl h))
        · rcases List.mem_cons.mp hb with rfl | hb'
          · exact Or.inl ((bool_or_true_iff ..).mpr (Or.inr (decide_eq_true hgb)))
          · exact Or.inr ⟨b, hb', hqb, hgb⟩
    · rw [if_neg hq]
      constructor
      · rintro (h | ⟨b, hb, hqb, hgb⟩)
        · exact Or.inl h
        · exact Or.inr ⟨b, List.mem_cons_of_mem _ hb, hqb, hgb⟩
      · rintro (h | ⟨b, hb, hqb, hgb⟩)
        · exact Or.inl h
        · rcases List.mem_cons.mp hb with rfl | hb'
          · exact absurd hqb hq
          · exact Or.inr ⟨b, hb', hqb, hgb⟩

/-- Characterisation of the nested dHash row loop. -/
theorem testBit_dhash_rows (data : Buffer) :
    ∀ (ys : List Nat) (acc i : Nat),
      (Nat.testBit (ys.foldl (fun hash y => (List.range 8).foldl
          (fun hash x =>
            if data.getD (y * 9 + x) 0 < data.getD (y * 9 + x + 1) 0 then
              hash ||| (1 <<< (y * 8 + x))
            else hash) hash) acc) i = true ↔
        Nat.testBit acc i = true ∨ ∃ y ∈ ys, ∃ x ∈ List.range 8,
          data.getD (y * 9 + x) 0 < data.getD (y * 9 + x + 1) 0 ∧ y * 8 + x = i)
  | [], acc, i => by simp
  | a :: ys, acc, i => by
    rw [List.foldl_cons, testBit_dhash_rows data ys _ i,
      testBit_foldl_or (q := fun x =>
          data.getD (a * 9 + x) 0 < data.getD (a * 9 + x + 1) 0)
        (fun x => a * 8 + x) (List.range 8) acc i]
    simp only [List.mem_cons]
    constructor
    · rintro ((h | ⟨x, hx, hqx, hgx⟩) | ⟨y, hy, hex⟩)
      · exact Or.inl h
      · exact Or.inr ⟨a, Or.inl rfl, x, hx, hqx, hgx⟩
      · exact Or.inr ⟨y, Or.inr hy, hex⟩
    · rintro (h | ⟨y, rfl | hy, hex⟩)
      · exact Or.inl (Or.inl h)
      · obtain ⟨x, hx, hqx, hgx⟩ := hex
        exact Or.inl (Or.inr ⟨x, hx, hqx, hgx⟩)
      · exact Or.inr ⟨y, hy, hex⟩

/-- On a 72-byte tile, bit `y*8+x` of the dHash is set iff the left pixel is
strictly below its right neighbour. -/
theorem dhash_9x8_testBit (data : Buffer) (hlen : data.length = 9 * 8)
    (y x : Nat) (hy : y < 8) (hx : x < 8) :
    Nat.testBit (dhash_9x8 data) (y * 8 + x) =
      decide (data.getD (y * 9 + x) 0 < data.getD (y * 9 + x + 1) 0) := by
  unfold dhash_9x8
  rw [if_neg (by omega)]
  have hchar := testBit_dhash_rows data (List.range 8) 0 (y * 8 + x)
  simp only [Nat.zero_testBit, Bool.false_eq_true, false_or] at hchar
  by_cases hc : data.getD (y * 9 + x) 0 < data.getD (y * 9 + x + 1) 0
  · rw [decide_eq_true hc]
    exact hchar.mpr ⟨y, List.mem_range.mpr hy, x, List.mem_range.mpr hx, hc, rfl⟩
  · rw [decide_eq_false hc]
    refine Bool.eq_false_iff.mpr (fun htrue => ?_)
    obtain ⟨y', hy', x', hx', hcc, heq⟩ := hchar.mp htrue
    obtain ⟨hxx, hyy⟩ := grid_index_inj (w := 8) (List.mem_range.mp hx') hx heq
    exact hc (hxx ▸ hyy ▸ hcc)

/-- The dHash always fits in 64 bits. -/
theorem dhash_9x8_lt (data : Buffer) : dhash_9x8 data < 2 ^ 64 := by
  unfold dhash_9x8
  split
  · exact Nat.two_pow_pos 64
  · apply foldl_preserves (fun h => h < 2 ^ 64) _ _ _ (Nat.two_pow_pos 64)
    intro h y hy hh
    apply foldl_preserves (fun h => h < 2 ^ 64) _ _ _ hh
    intro h' x hx hh'
    by_cases hc : data.getD (y * 9 + x) 0 < data.getD (y * 9 + x + 1) 0
    · rw [if_pos hc]
      apply Nat.or_lt_two_pow hh'
      rw [Nat.shiftLeft_eq, one_mul]
      exact Nat.pow_lt_pow_right (by norm_num)
        (by
          have h1 := List.mem_range.mp hy
          have h2 := List.mem_range.mp hx
          omega)
    · rwa [if_neg hc]

/-- A hex digit of a remainder reads back to itself. -/
theorem hexVal_hexDigit_mod (m : Nat) : hexVal (hexDigit (m % 16)) = m % 16 := by
  have h : ∀ d, d < 16 → hexVal (hexDigit d) = d := by decide
  exact h _ (Nat.mod_lt _ (by norm_num))

/-- Reading back the base-16 digit expansion recovers the number modulo
`16^k`. -/
theorem fromHex_digits (k : Nat) : ∀ n : Nat,
    ((List.range k).map (fun i => n / 16 ^ (k - 1 - i) % 16)).foldl
      (fun acc d => acc * 16 + d) 0 = n % 16 ^ k := by
  induction k with
  | zero => intro n; simp [Nat.mod_one]
  | succ k ih =>
    intro n
    rw [List.range_succ, List.map_append, List.foldl_append]
    have hpref : (List.range k).map (fun i => n / 16 ^ (k + 1 - 1 - i) % 16) =
        (List.range k).map (fun i => n / 16 / 16 ^ (k - 1 - i) % 16) := by
      apply List.map_congr_left
      intro i hi
      have hik : i < k := List.mem_range.mp hi
      rw [Nat.div_div_eq_div_mul]
      have hpow : 16 * 16 ^ (k - 1 - i) = 16 ^ (k + 1 - 1 - i) := by
        rw [← pow_succ' 16 (k - 1 - i)]
        congr 1
        omega
      rw [← hpow, Nat.mul_comm]
    rw [hpref, ih (n / 16)]
    simp only [List.map_cons, List.map_nil, List.foldl_cons, List.foldl_nil,
      Nat.add_sub_cancel, Nat.sub_self, pow_zero, Nat.div_one]
    have hm : n % (16 * 16 ^ k) = n % 16 + 16 * (n / 16 % 16 ^ k) := Nat.mod_mul
    rw [pow_succ' 16 k]
    omega

/-- `toHex16` is a faithful rendering: reading the 16 hex digits back yields
the hash, for any 64-bit value. -/
theorem fromHex_toHex16 (n : Nat) (h : n < 2 ^ 64) : fromHex (toHex16 n) = n := by
  have h16 : n < 16 ^ 16 := by
    have hp : (16 : Nat) ^ 16 = 2 ^ 64 := by norm_num
    omega
  show (((List.range 16).map (fun i => hexDigit (n / 16 ^ (15 - i) % 16))).foldl
    (fun acc c => acc * 16 + hexVal c) 0) = n
  rw [List.foldl_map]
  have step2 : (List.range 16).foldl
      (fun acc i => acc * 16 + hexVal (hexDigit (n / 16 ^ (15 - i) % 16))) 0 =
      (List.range 16).foldl (fun acc i => acc * 16 + n / 16 ^ (15 - i) % 16) 0 := by
    simp only [hexVal_hexDigit_mod]
  rw [step2]
  have step3 := fromHex_digits 16 n
  rw [List.foldl_map] at step3
  have h15 : (16 : ℕ) - 1 = 15 := rfl
  simp only [h15] at step3
  rw [step3]
  exact Nat.mod_eq_of_lt h16

/-- `toHex16` always renders exactly 16 characters. -/
theorem toHex16_length (n : Nat) : (toHex16 n).length = 16 := by
  show ((List.range 16).map (fun i => hexDigit (n / 16 ^ (15 - i) % 16))).length = 16
  rw [List.length_map, List.length_range]

/-- Every character of a `toHex16` rendering is a lowercase hex digit. -/
theorem toHex16_chars (n : Nat) :
    ∀ c ∈ (toHex16 n).toList, ('0' ≤ c ∧ c ≤ '9') ∨ ('a' ≤ c ∧ c ≤ 'f') := by
  intro c hc
  have hc' : c ∈ (List.range 16).map (fun i => hexDigit (n / 16 ^ (15 - i) % 16)) := hc
  obtain ⟨i, _, rfl⟩ := List.mem_map.mp hc'
  have h : ∀ d, d < 16 →
      (('0' ≤ hexDigit d ∧ hexDigit d ≤ '9') ∨ ('a' ≤ hexDigit d ∧ hexDigit d ≤ 'f')) := by
    decide
  exact h _ (Nat.mod_lt _ (by norm_num))

/-- C4: the dHash core (`dhash_9x8`, the hash value behind `perceptualHash`)
returns hash 0 for every input whose length is not exactly 72 bytes; on a
72-byte tile, bit `b = y*8 + x` (incrementing row-major over the 8 rows and
8 column-pairs) is set iff the left pixel is strictly less than its right
neighbour. -/
theorem dhash_9x8_hash_spec (data : Buffer) :
    (data.length ≠ 9 * 8 → dhash_9x8 data = 0) ∧
    (data.length = 9 * 8 → ∀ y x, y < 8 → x < 8 →
      Nat.testBit (dhash_9x8 data) (y * 8 + x) =
        decide (data.getD (y * 9 + x) 0 < data.getD (y * 9 + x + 1) 0)) := by
  constructor
  · intro h
    unfold dhash_9x8
    rw [if_pos h]
  · exact fun hlen y x hy hx => dhash_9x8_testBit data hlen y x hy hx

/-- C4 witness: the empty buffer hashes to 0, and on the 72-byte gradient
tile bit 0 is set exactly because `0 < 16`. -/
theorem dhash_9x8_hash_spec_witness :
    (([] : Buffer).length ≠ 9 * 8 ∧ dhash_9x8 [] = 0) ∧
    (gradientTile.length = 9 * 8 ∧
      Nat.testBit (dhash_9x8 gradientTile) (0 * 8 + 0) =
        decide (gradientTile.getD (0 * 9 + 0) 0 < gradientTile.getD (0 * 9 + 0 + 1) 0)) :=
  ⟨⟨by decide, (dhash_9x8_hash_spec []).1 (by decide)⟩,
   ⟨by decide, (dhash_9x8_hash_spec gradientTile).2 (by decide) 0 0
     (by decide) (by decide)⟩⟩

/-- C9: for every buffer of length ≥ 72, `dhash9x8` computes the dHash of
the first 72 bytes (so longer-than-72 inputs can yield a nonzero hash) and
renders it as a lowercase zero-padded 16-hex-digit string (16 characters,
each a lowercase hex digit, and the digits read back to the hash value);
only inputs of length < 72 return the default, and that default is the
single-character string `"0"`, not a 16-digit zero-padded string. -/
theorem dhash_9x8_js_spec :
    (∀ data : Buffer, data.length < 9 * 8 → dhash_9x8_js data = "0") ∧
    ("0" : String).length = 1 ∧
    (∀ data : Buffer, 9 * 8 ≤ data.length →
      dhash_9x8_js data = toHex16 (dhash_9x8 (data.take (9 * 8))) ∧
      (dhash_9x8_js data).length = 16 ∧
      (∀ c ∈ (dhash_9x8_js data).toList,
        ('0' ≤ c ∧ c ≤ '9') ∨ ('a' ≤ c ∧ c ≤ 'f')) ∧
      fromHex (dhash_9x8_js data) = dhash_9x8 (data.take (9 * 8))) ∧
    (gradientTile ++ [0]).length = 73 ∧
    dhash_9x8_js (gradientTile ++ [0]) ≠ "0" ∧
    dhash_9x8_js (gradientTile ++ [0]) ≠ toHex16 0 := by
  refine ⟨?_, rfl, ?_, by decide, by decide, by decide⟩
  · intro data h
    unfold dhash_9x8_js
    rw [if_pos h]
  · intro data h
    have hcond : ¬(data.length < 9 * 8) := by omega
    have hjs : dhash_9x8_js data = toHex16 (dhash_9x8 (data.take (9 * 8))) := by
      unfold dhash_9x8_js
      rw [if_neg hcond]
    refine ⟨hjs, ?_, ?_, ?_⟩
    · rw [hjs]
      exact toHex16_length _
    · rw [hjs]
      exact toHex16_chars _
    · rw [hjs]
      exact fromHex_toHex16 _ (dhash_9x8_lt _)

/-- C9 witness: concrete instances — a 71-byte buffer yields `"0"`, and on a
73-byte buffer the render decodes to the hash of the first 72 bytes. -/
theorem dhash_9x8_js_spec_witness :
    (List.replicate 71 (0 : Nat)).length < 9 * 8 ∧
    dhash_9x8_js (List.replicate 71 0) = "0" ∧
    9 * 8 ≤ (gradientTile ++ [0]).length ∧
    fromHex (dhash_9x8_js (gradientTile ++ [0])) =
      dhash_9x8 ((gradientTile ++ [0]).take (9 * 8)) :=
  ⟨by decide, dhash_9x8_js_spec.1 (List.replicate 71 0) (by decide), by decide,
   (dhash_9x8_js_spec.2.2.1 (gradientTile ++ [0]) (by decide)).2.2.2⟩

/-! ### Baseline-metrics lemmas -/

/-- Reading the row-ink profile at an in-range row gives that row's ink. -/
theorem baselineRowSums_getD (data : Buffer) (width height y : Nat)
    (hy : y < height) :
    (baselineRowSums data width height).getD y 0 = rowInk data width y := by
  unfold baselineRowSums
  rw [List.getD_eq_getElem?_getD, List.getElem?_map, List.getElem?_range hy]
  rfl

/-- The row-ink profile has one entry per row. -/
theorem baselineRowSums_length (data : Buffer) (width height : Nat) :
    (baselineRowSums data width height).length = height := by
  unfold baselineRowSums
  rw [List.length_map, List.length_range]

/-- If no interior row clears the threshold, no peak is recorded. -/
theorem baselinePeaks_nil (rs : List ℝ) (threshold : ℝ)
    (h : ∀ y, 1 ≤ y → y < rs.length - 1 → ¬(rs.getD y 0 > threshold)) :
    baselinePeaks rs threshold = [] := by
  unfold baselinePeaks
  apply foldl_preserves (fun l : List Nat => l = [])
  · rfl
  · intro l y hy hl
    have hy' := List.mem_range'_1.mp hy
    rw [if_neg (fun hc => h y hy'.1 (by omega) hc.1)]
    exact hl

/-- C8: `baselineMetrics.textLineCount ≥ 0` always; and for every valid
input in which no row's ink value exceeds the peak threshold
`mean + 0.6·std`, `textLineCount = 0` and
`spacingNorm = spacingMadNorm = offsetNorm = 0`. -/
theorem baseline_metrics_no_peaks (data : Buffer) (width height : Nat)
    (hw : 0 < width) (hh : 0 < height) (hlen : width * height ≤ data.length)
    (hq : ∀ y, y < height →
      rowInk (data.take (width * height)) width y ≤
        meanOf (baselineRowSums (data.take (width * height)) width height) +
        stdOf (baselineRowSums (data.take (width * height)) width height) * 0.6) :
    (∀ (d : Buffer) (w h : Nat), 0 ≤ (baseline_metrics_js d w h).text_line_count) ∧
    (baseline_metrics_js data width height).text_line_count = 0 ∧
    (baseline_metrics_js data width height).spacing_norm = 0 ∧
    (baseline_metrics_js data width height).spacing_mad_norm = 0 ∧
    (baseline_metrics_js data width height).offset_norm = 0 := by
  have hcond : ¬(width = 0 ∨ height = 0 ∨ data.length < width * height) := by omega
  have hpeaks : baselinePeaks
      (baselineRowSums (data.take (width * height)) width height)
      (meanOf (baselineRowSums (data.take (width * height)) width height) +
        stdOf (baselineRowSums (data.take (width * height)) width height) * 0.6)
      = [] := by
    apply baselinePeaks_nil
    intro y h1y h2y
    rw [baselineRowSums_length] at h2y
    rw [baselineRowSums_getD _ _ _ _ (by omega)]
    exact not_lt.mpr (hq y (by omega))
  refine ⟨fun d w h => Nat.zero_le _, ?_, ?_, ?_, ?_⟩ <;>
    simp only [baseline_metrics_js, if_neg hcond, hpeaks] <;>
    simp

/-- C8 witness: the blank 1×1 image is valid, its single row has ink 0 and
threshold 0, and all the counts and norms are 0. -/
theorem baseline_metrics_no_peaks_witness :
    0 < 1 ∧ 1 * 1 ≤ ([255] : Buffer).length ∧
    (∀ y, y < 1 →
      rowInk (([255] : Buffer).take (1 * 1)) 1 y ≤
        meanOf (baselineRowSums (([255] : Buffer).take (1 * 1)) 1 1) +
        stdOf (baselineRowSums (([255] : Buffer).take (1 * 1)) 1 1) * 0.6) ∧
    ((baseline_metrics_js [255] 1 1).text_line_count = 0 ∧
     (baseline_metrics_js [255] 1 1).spacing_norm = 0 ∧
     (baseline_metrics_js [255] 1 1).spacing_mad_norm = 0 ∧
     (baseline_metrics_js [255] 1 1).offset_norm = 0) := by
  have hink : ∀ y, y < 1 → rowInk (([255] : Buffer).take (1 * 1)) 1 y = 0 := by
    intro y hy
    interval_cases y
    norm_num [rowInk, List.range_succ, List.range_zero]
  have hrs : baselineRowSums (([255] : Buffer).take (1 * 1)) 1 1 = [0] := by
    unfold baselineRowSums
    rw [show List.range 1 = [0] by decide, List.map_cons, List.map_nil,
      hink 0 (by norm_num)]
  have hmean : meanOf ([0] : List ℝ) = 0 := by
    simp [meanOf]
  have hstd : stdOf ([0] : List ℝ) = 0 := by
    simp [stdOf, varianceOf, meanOf]
  have hq : ∀ y, y < 1 →
      rowInk (([255] : Buffer).take (1 * 1)) 1 y ≤
        meanOf (baselineRowSums (([255] : Buffer).take (1 * 1)) 1 1) +
        stdOf (baselineRowSums (([255] : Buffer).take (1 * 1)) 1 1) * 0.6 := by
    intro y hy
    rw [hink y hy, hrs, hmean, hstd]
    norm_num
  have hmain := baseline_metrics_no_peaks [255] 1 1 (by norm_num) (by norm_num)
    (by norm_num) hq
  exact ⟨by norm_num, by norm_num, hq,
    hmain.2.1, hmain.2.2.1, hmain.2.2.2.1, hmain.2.2.2.2⟩

/-! ### Skew-estimator lemmas -/

/-- A pair-accumulating fold is the pair of the two map-sums. -/
theorem foldl_pair_sum (f g : Nat → ℝ) :
    ∀ (l : List Nat) (a b : ℝ),
      l.foldl (fun nd idx => (nd.1 + f idx, nd.2 + g idx)) (a, b) =
        (a + (l.map f).sum, b + (l.map g).sum)
  | [], a, b => by simp
  | x :: l, a, b => by
    rw [List.foldl_cons, foldl_pair_sum f g l, List.map_cons, List.map_cons,
      List.sum_cons, List.sum_cons, add_assoc, add_assoc]

/-- The windowed accumulation as a pair of sums. -/
theorem skewWindowSum_eq (hist : Nat → ℝ) (start stop : Nat) :
    skewWindowSum hist start stop =
      (((List.range' start (stop + 1 - start)).map
          (fun (i : ℕ) => ((i : ℝ) - 90) * hist i)).sum,
       ((List.range' start (stop + 1 - start)).map (fun (i : ℕ) => hist i)).sum) := by
  unfold skewWindowSum
  rw [foldl_pair_sum (fun (i : ℕ) => ((i : ℝ) - 90) * hist i)
    (fun (i : ℕ) => hist i), zero_add, zero_add]

/-- Buckets are always clamped into `0..180`. -/
theorem histBucket_le (data : Buffer) (width x y : Nat) :
    histBucket data width x y ≤ 180 := by
  unfold histBucket
  rw [Int.toNat_le]
  exact max_le (by norm_num) (le_trans (min_le_left ..) (by norm_num))

/-- The gradient histogram is nonnegative everywhere and zero above bucket
180. -/
theorem gradient_histogram_inv (data : Buffer) (width height : Nat) :
    (∀ i, 0 ≤ gradient_histogram data width height i) ∧
    (∀ i, 180 < i → gradient_histogram data width height i = 0) := by
  unfold gradient_histogram
  split
  · exact ⟨fun i => le_rfl, fun i _ => rfl⟩
  · apply foldl_preserves (fun hist : Nat → ℝ =>
      (∀ i, 0 ≤ hist i) ∧ (∀ i, 180 < i → hist i = 0))
    · exact ⟨fun i => le_rfl, fun i _ => rfl⟩
    · intro hist y _ hh
      apply foldl_preserves (fun hist : Nat → ℝ =>
        (∀ i, 0 ≤ hist i) ∧ (∀ i, 180 < i → hist i = 0))
      · exact hh
      · intro hist' x _ hh'
        by_cases hm : sobelMagR data width x y < 10
        · rwa [if_pos hm]
        · rw [if_neg hm]
          constructor
          · intro i
            by_cases hib : i = histBucket data width x y
            · rw [if_pos hib]
              exact add_nonneg (hh'.1 i) (Real.sqrt_nonneg _)
            · rw [if_neg hib]
              exact hh'.1 i
          · intro i hi
            have hb := histBucket_le data width x y
            rw [if_neg (by omega)]
            exact hh'.2 i hi

/-- Invariant of the source's argmax scan over the first `n` buckets: the
best value dominates the scanned prefix and is either still the initial
`(90, 0)` state or the first-encountered positive maximum. -/
theorem skew_scan_inv_aux (hist : Nat → ℝ) :
    ∀ (n : Nat) (bb : Nat) (bv : ℝ),
      (List.range n).foldl
        (fun best idx => if hist idx > best.2 then (idx, hist idx) else best)
        (90, (0 : ℝ)) = (bb, bv) →
      (∀ j < n, hist j ≤ bv) ∧ 0 ≤ bv ∧
      ((bv = 0 ∧ bb = 90) ∨
        (0 < bv ∧ bb < n ∧ hist bb = bv ∧ ∀ j < bb, hist j < bv)) := by
  intro n
  induction n with
  | zero =>
    intro bb bv h
    rw [List.range_zero, List.foldl_nil] at h
    injection h with h1 h2
    subst h1
    subst h2
    exact ⟨fun j hj => absurd hj (Nat.not_lt_zero j), le_rfl, Or.inl ⟨rfl, rfl⟩⟩
  | succ n ih =>
    intro bb bv h
    rw [List.range_succ, List.foldl_append, List.foldl_cons, List.foldl_nil] at h
    obtain ⟨bb', bv', hs⟩ : ∃ a b, (List.range n).foldl
        (fun best idx => if hist idx > best.2 then (idx, hist idx) else best)
        (90, (0 : ℝ)) = (a, b) := ⟨_, _, rfl⟩
    rw [hs] at h
    dsimp only at h
    obtain ⟨ih1, ih0, ih2⟩ := ih bb' bv' hs
    by_cases hgt : hist n > bv'
    · rw [if_pos hgt] at h
      injection h with h1 h2
      subst h1
      subst h2
      refine ⟨?_, le_of_lt (lt_of_le_of_lt ih0 hgt),
        Or.inr ⟨lt_of_le_of_lt ih0 hgt, Nat.lt_succ_self _, rfl, ?_⟩⟩
      · intro j hj
        rcases Nat.lt_succ_iff_lt_or_eq.mp hj with hj' | rfl
        · exact le_of_lt (lt_of_le_of_lt (ih1 j hj') hgt)
        · exact le_rfl
      · intro j hj
        exact lt_of_le_of_lt (ih1 j hj) hgt
    · rw [if_neg hgt] at h
      injection h with h1 h2
      subst h1
      subst h2
      refine ⟨?_, ih0, ?_⟩
      · intro j hj
        rcases Nat.lt_succ_iff_lt_or_eq.mp hj with hj' | rfl
        · exact ih1 j hj'
        · exact not_lt.mp hgt
      · rcases ih2 with ⟨hz, hb⟩ | ⟨hp, hlt, heq, hstr⟩
        · exact Or.inl ⟨hz, hb⟩
        · exact Or.inr ⟨hp, by omega, heq, hstr⟩

/-- The scan's result characterised over all 181 buckets. -/
theorem skew_scan_inv (hist : Nat → ℝ) :
    (∀ j < 181, hist j ≤ (skewScan hist).2) ∧ 0 ≤ (skewScan hist).2 ∧
    (((skewScan hist).2 = 0 ∧ (skewScan hist).1 = 90) ∨
      (0 < (skewScan hist).2 ∧ (skewScan hist).1 < 181 ∧
        hist (skewScan hist).1 = (skewScan hist).2 ∧
        ∀ j < (skewScan hist).1, hist j < (skewScan hist).2)) :=
  skew_scan_inv_aux hist 181 (skewScan hist).1 (skewScan hist).2 rfl

/-- C7: for every valid input, `estimateSkew` picks the histogram bucket
with maximum accumulated weight, resolving ties by the first-encountered
(lowest) index, and returns as angle the weighted average of
`(bucket index - 90)` over the ±3-bucket window centred on that bucket
(clipped to `[0, 180]`), weighted by histogram value; if the total window
weight is 0 the angle is 0.  (With an all-zero histogram the scan's initial
bucket 90 differs from the spec-side lowest-index argmax 0, but both
windows then carry weight 0 and the returned angle is 0 either way.) -/
theorem estimate_skew_angle_matches_spec (data : Buffer) (width height : Nat)
    (hw : 0 < width) (hh : 0 < height) (hlen : width * height ≤ data.length) :
    (estimate_skew_angle_js data width height).angle =
      specSkewAngle (gradient_histogram (data.take (width * height)) width height) := by
  have hcond : ¬(width = 0 ∨ height = 0 ∨ data.length < width * height) := by omega
  simp only [estimate_skew_angle_js, if_neg hcond]
  set hist := gradient_histogram (data.take (width * height)) width height with hhist
  obtain ⟨hnn, hz⟩ := gradient_histogram_inv (data.take (width * height)) width height
  rw [← hhist] at hnn hz
  obtain ⟨hs1, hs0, hs2⟩ := skew_scan_inv hist
  rcases hs2 with ⟨hbv0, hbb90⟩ | ⟨hbvpos, hbblt, hbbeq, hstr⟩
  · have hall : ∀ i, hist i = 0 := by
      intro i
      rcases le_or_lt i 180 with hi | hi
      · exact le_antisymm (hbv0 ▸ hs1 i (by omega)) (hnn i)
      · exact hz i hi
    have hsum0 : ∀ l : List Nat, (l.map (fun (i : ℕ) => hist i)).sum = 0 :=
      fun l => List.sum_eq_zero (fun x hx => by
        obtain ⟨i, _, rfl⟩ := List.mem_map.mp hx
        exact hall i)
    have hws2 : ∀ st sp, (skewWindowSum hist st sp).2 = 0 := by
      intro st sp
      rw [skewWindowSum_eq]
      exact hsum0 _
    rw [hws2, if_neg (lt_irrefl (0 : ℝ))]
    simp only [specSkewAngle]
    rw [hsum0, if_pos rfl]
  · set bb := (skewScan hist).1 with hbb
    set bv := (skewScan hist).2 with hbv
    have hbest : sInf {b : Nat | b ≤ 180 ∧ ∀ j ≤ 180, hist j ≤ hist b} = bb := by
      have hmem : bb ∈ {b : Nat | b ≤ 180 ∧ ∀ j ≤ 180, hist j ≤ hist b} := by
        refine ⟨by omega, fun j hj => ?_⟩
        rw [hbbeq]
        exact hs1 j (by omega)
      have hle := Nat.sInf_le hmem
      have hmem2 := Nat.sInf_mem (⟨bb, hmem⟩ :
        {b : Nat | b ≤ 180 ∧ ∀ j ≤ 180, hist j ≤ hist b}.Nonempty)
      by_contra hne
      have hlt : sInf {b : Nat | b ≤ 180 ∧ ∀ j ≤ 180, hist j ≤ hist b} < bb :=
        lt_of_le_of_ne hle hne
      have h1 := hstr _ hlt
      have h2 := hmem2.2 bb (by omega)
      rw [hbbeq] at h2
      exact absurd h1 (not_lt.mpr h2)
    have hst : (max ((bb : ℤ) - 3) 0).toNat = bb - 3 := by omega
    have hsp : (min ((bb : ℤ) + 3) 180).toNat = min (bb + 3) 180 := by omega
    simp only [specSkewAngle]
    rw [hbest, hst, hsp, skewWindowSum_eq]
    dsimp only
    set den := ((List.range' (bb - 3) (min (bb + 3) 180 + 1 - (bb - 3))).map
      (fun (i : ℕ) => hist i)).sum with hden
    have hdnn : 0 ≤ den := by
      rw [hden]
      exact List.sum_nonneg (fun x hx => by
        obtain ⟨i, _, rfl⟩ := List.mem_map.mp hx
        exact hnn i)
    by_cases hd : den = 0
    · rw [if_pos hd, hd, if_neg (lt_irrefl (0 : ℝ))]
    · rw [if_neg hd, if_pos (lt_of_le_of_ne hdnn (Ne.symm hd))]

/-- C7 witness: the 1×1 image is valid (its histogram is degenerate and
all-zero) and the returned angle matches the spec-side value. -/
theorem estimate_skew_angle_matches_spec_witness :
    0 < 1 ∧ 1 * 1 ≤ ([0] : Buffer).length ∧
    (estimate_skew_angle_js [0] 1 1).angle =
      specSkewAngle (gradient_histogram (([0] : Buffer).take (1 * 1)) 1 1) :=
  ⟨by decide, by decide,
   estimate_skew_angle_matches_spec [0] 1 1 (by decide) (by decide) (by decide)⟩

end PipelineCore
